import Mathlib

/-!
Shallow embedding of the Kiebitz appointment core
(`src/apps/provider/actions/send-invitations.js`,
`src/apps/user/actions/confirm-offers.js`,
`src/apps/provider/actions/key-pairs.js`,
`src/apps/provider/actions/create-appointment.js`)
together with theorems settling the frozen claims about it.

Modelling conventions:
* JS numbers used as millisecond timestamps become `Nat`; `new Date()` is a
  single `now : Nat` parameter per call (the code calls `new Date()` several
  times inside one cycle; we model one instant per invocation).
* The persistence layer (`backend.local.get/set`) becomes explicit arguments
  and explicit result fields (`writes`, `pool`, `cache`).
* Remote collaborators (allocator, booking endpoint) become behaviour
  parameters: the allocator response is data, the booking endpoint is a
  function from slot id to an outcome.
* Cryptographic collaborators are symbolic: `sign`/`ecdhEncrypt` build
  records holding their exact inputs, `ecdhDecrypt` success is carried as
  data on the allocator response (`RawToken.decrypted`), `randomBytes` /
  key generation results are supplied as parameters.
* JS exceptions thrown by property access on `undefined`/`null` are modelled
  with `Except Unit`; `catch`-and-continue keeps the mutations that happened
  before the throw, exactly as in-place object mutation does.
-/

namespace Kiebitz

/-- Tagged outcome statuses returned by the top-level actions. -/
inductive Status where
  | succeeded
  | failed
  | loaded
deriving DecidableEq, Repr

/-! ## User side: `confirm-offers.js` -/

/-- Entry of the slot-status cache `user::invitation::slots`
(`{status: taken|error}`). -/
inductive SlotStatus where
  | taken
  | error
deriving DecidableEq, Repr

/-- The slot-status cache: a JS object keyed by slot id.  Assignments
append, lookups take the latest binding (last write wins). -/
abbrev SlotInfos := List (String × SlotStatus)

/-- JS object property read: the most recent assignment wins. -/
def getInfo (m : SlotInfos) (id : String) : Option SlotStatus :=
  (m.reverse.find? (fun p => p.1 == id)).map (·.2)

/-- JS object property write (`slotInfos[slotData.id] = {status: ...}`). -/
def setInfo (m : SlotInfos) (id : String) (s : SlotStatus) : SlotInfos :=
  m ++ [(id, s)]

/-- A slot as it appears on an offer inside an invitation
(`offer.slotData[i]`, fields read by `confirm-offers.js`). -/
structure OfferSlotData where
  id : String
  failed : Bool
  openFlag : Bool
deriving DecidableEq, Repr

/-- An offer inside a decrypted invitation, as read by `confirm-offers.js`. -/
structure UOffer where
  publicKey : String
  slotData : List OfferSlotData
deriving DecidableEq, Repr

/-- Behaviour of the remote `bookSlot` endpoint for one slot id:
it acknowledges, throws an `RPCException` with an error code, or throws
something that is not an `RPCException` (a network error, a thrown string,
...). -/
inductive BookOutcome where
  | ok
  | rpcError (code : Nat)
  | otherThrow
deriving DecidableEq, Repr

/-- The slot loop of `confirmOffers` for a single offer
(`confirm-offers.js` lines 41-97).  `encOk` is whether
`ephemeralECDHEncrypt` for this offer succeeds; its failure is caught by
the per-offer catch, aborting the remaining slots of this offer (third
component `true`) without touching the cache. -/
def trySlots (book : String → BookOutcome) (encOk : Bool) :
    List OfferSlotData → SlotInfos → SlotInfos × Option OfferSlotData × Bool
  | [], infos => (infos, none, false)
  | sd :: rest, infos =>
    if sd.failed || !sd.openFlag then trySlots book encOk rest infos
    else if getInfo infos sd.id == some .taken then trySlots book encOk rest infos
    else if !encOk then (infos, none, true)
    else
      match book sd.id with
      | .ok => (infos, some sd, false)
      | .rpcError code =>
        if code = 401 then trySlots book encOk rest (setInfo infos sd.id .taken)
        else trySlots book encOk rest (setInfo infos sd.id .error)
      | .otherThrow => trySlots book encOk rest infos

/-- The offer loop of `confirmOffers` (`confirm-offers.js` lines 39-102).
A per-offer abort (encryption throw) and an exhausted slot list both fall
through to the next offer, keeping the cache mutations made so far. -/
def tryOffers (book : String → BookOutcome) (encOk : String → Bool) :
    List UOffer → SlotInfos → SlotInfos × Option (UOffer × OfferSlotData)
  | [], infos => (infos, none)
  | offer :: rest, infos =>
    match trySlots book (encOk offer.publicKey) offer.slotData infos with
    | (infos1, some sd, _) => (infos1, some (offer, sd))
    | (infos1, none, _) => tryOffers book encOk rest infos1

/-- Result of `confirmOffers`: the returned tagged outcome, the record
persisted under `user::invitation::accepted` (offer and chosen slot), and
the cache persisted under `user::invitation::slots` by the `finally`
block. -/
structure ConfirmResult where
  status : Status
  accepted : Option (UOffer × OfferSlotData)
  cache : SlotInfos
deriving DecidableEq, Repr

/-- Core of `confirmOffers` after the lock is acquired and the initial
provider-data encryption succeeded (`confirm-offers.js` lines 39-110).
The cache write in `finally` happens on every exit path. -/
def confirmOffers (book : String → BookOutcome) (encOk : String → Bool)
    (offers : List UOffer) (cache0 : SlotInfos) : ConfirmResult :=
  match tryOffers book encOk offers cache0 with
  | (c, some r) => { status := .succeeded, accepted := some r, cache := c }
  | (c, none) => { status := .failed, accepted := none, cache := c }

/-! ## Provider side: data model for `send-invitations.js` -/

/-- One hour in milliseconds (`1000 * 60 * 60`). -/
def hourMs : Nat := 1000 * 60 * 60

/-- Twenty-four hours in milliseconds (`1000 * 60 * 60 * 24`). -/
def dayMs : Nat := 1000 * 60 * 60 * 24

/-- The owning token stored on a closed slot (`slot.token`); the code reads
its `token` field (the token secret). -/
structure SlotOwner where
  token : String
deriving DecidableEq, Repr

/-- A slot of an appointment.  `owner` models `slot.token`: `none` when the
slot records no owning token (JS `null`/`undefined`, reading `.token` of it
throws), `some` when it records one. -/
structure Slot where
  id : String
  openFlag : Bool
  owner : Option SlotOwner
deriving DecidableEq, Repr

/-- An appointment from `provider::appointments::open`.  `id`, `status`,
`cancel` are the three identifiers generated by `createAppointment`; the
caller-supplied opaque `properties` do not influence the scheduling cycle
and are omitted. -/
structure Appointment where
  id : String
  status : String
  cancel : String
  timestamp : Nat
  slotData : List Slot
deriving DecidableEq, Repr

/-- The decrypted token payload (`token.data` after `ecdhDecrypt` and
`JSON.parse`): the fields the scheduler reads are `id` and `publicKey`. -/
structure TokenData where
  id : String
  publicKey : String
deriving DecidableEq, Repr

/-- A queue token from `provider::tokens::open`.  `Option` fields model JS
fields that may be `undefined` on a stored token: the code explicitly
checks `grantID`/`slotIDs` for `undefined`, and reading `data.publicKey`
of an `undefined` `data` throws.  `encPublicKey` is
`token.encryptedData.publicKey`. -/
structure QueueToken where
  token : String
  queue : String
  encPublicKey : String
  data : Option TokenData
  keyPair : Option String
  grantID : Option String
  slotIDs : Option (List String)
  expiresAt : Nat
deriving DecidableEq, Repr

/-- An encrypted token as returned by `getQueueTokens`, together with the
outcomes of the external collaborators applied to it: `decrypted` is the
result of `getQueuePrivateKey` + `ecdhDecrypt` + `JSON.parse` (`none` means
that chain threw and the token is discarded), `freshKeyPair` and
`freshGrantID` are the values produced by `generateECDHKeyPair()` and
`randomBytes(32)` for this token. -/
structure RawToken where
  token : String
  queue : String
  encPublicKey : String
  decrypted : Option TokenData
  freshKeyPair : String
  freshGrantID : String
deriving DecidableEq, Repr

/-- A signing key pair (`keyPairs.signing`). -/
structure KeyPair where
  publicKey : String
  privateKey : String
deriving DecidableEq, Repr

/-- Symbolic detached signature: `sign(privateKey, payload, publicKey)`
is modelled as a record of its exact inputs. -/
structure Signed (α : Type) where
  privateKey : String
  payload : α
  publicKey : String
deriving DecidableEq, Repr

/-- Symbolic `ecdhEncrypt(payload, senderKeyPair, recipientPublicKey)`. -/
structure Ecdh (α : Type) where
  payload : α
  senderKeyPair : Option String
  recipientPublicKey : String
deriving DecidableEq, Repr

/-- One permission entry (`{rights, keys}`). -/
structure Permission where
  rights : List String
  keys : List String
deriving DecidableEq, Repr

/-- The capability object signed for each slot held by a token
(`send-invitations.js` lines 201-226). -/
structure GrantContent where
  objectID : String
  grantID : String
  singleUse : Bool
  expiresAt : Nat
  permissions : List Permission
deriving DecidableEq, Repr

/-- A signed grant. -/
abbrev SignedGrant := Signed GrantContent

/-- One per-appointment offer inside a token's invitation payload
(`{...oa, slotData: [...], grants: [...]}`). -/
structure OfferOut where
  appointmentId : String
  status : String
  cancel : String
  timestamp : Nat
  slotData : List Slot
  grants : List SignedGrant
deriving DecidableEq, Repr

/-- The invitation payload (`userData`) encrypted to one token. -/
structure UserData where
  provider : String
  offers : List OfferOut
deriving DecidableEq, Repr

/-- The record pushed onto `dataToSubmit` for one token
(`send-invitations.js` lines 266-279). -/
structure SubmitData where
  id : String
  data : Signed (Ecdh UserData)
  permissions : List Permission
deriving DecidableEq, Repr

/-! ## Provider side: the scheduling cycle -/

/-- JS strict equality between a boolean and a string.  In
`!slot.token.token === token.token` the left operand is a boolean (the
logical negation of the owner's secret string) and the right operand is a
string, and `===` across distinct runtime types is always `false`. -/
def jsEqBoolStr (_b : Bool) (_s : String) : Bool := false

/-- JS logical negation of a string: truthy unless empty. -/
def jsNotStr (s : String) : Bool := s == ""

/-- Lookup in a JS object built by successive assignments: the last
assignment for a key wins. -/
def lookupLast {α : Type} (l : List (String × α)) (id : String) : Option α :=
  (l.reverse.find? (fun p => p.1 == id)).map (·.2)

/-- Only offer appointments that are more than one hour in the future
(`send-invitations.js` lines 51-55, strict comparison). -/
def futureApps (now : Nat) (apps : List Appointment) : List Appointment :=
  apps.filter (fun oa => now + hourMs < oa.timestamp)

/-- The live part of the pool (`expiresAt` strictly in the future,
lines 71-73). -/
def liveTokens (now : Nat) (pool : List QueueToken) : List QueueToken :=
  pool.filter (fun t => now < t.expiresAt)

/-- Number of open slots across the selected appointments (lines 74-77). -/
def openSlotCount (apps : List Appointment) : Nat :=
  apps.foldl (fun acc oa => acc + (oa.slotData.filter (·.openFlag)).length) 0

/-- The `selectedAppointments` filter (lines 128-130): `sl.open || true`
is always true, so an appointment is selected iff it has any slot at
all. -/
def selectApps (apps : List Appointment) : List Appointment :=
  apps.filter (fun oa => 0 < (oa.slotData.filter (fun sl => sl.openFlag || true)).length)

/-- The `slotsById` index (lines 133-141): later slots with the same id
overwrite earlier ones. -/
def slotsById (apps : List Appointment) : List (String × Slot) :=
  ((apps.map (·.slotData)).flatten).map (fun s => (s.id, s))

/-- The `appointmentsBySlotId` index (lines 132-141). -/
def appsBySlotId (apps : List Appointment) : List (String × Appointment) :=
  (apps.map (fun oa => oa.slotData.map (fun s => (s.id, oa)))).flatten

/-- The reconciliation filter callback (lines 150-158) for one slot id of a
token with secret `tokSecret`.  Drops ids whose slot no longer exists.
For a closed slot, the code evaluates
`!slot.open && !slot.token.token === token.token`: if `slot.token` is
null/undefined the property read throws (`Except.error`), otherwise the
`===` compares a boolean with a string and is always false, so the id is
kept. -/
def keepSlotID (sById : List (String × Slot)) (tokSecret : String) (id : String) :
    Except Unit Bool :=
  match lookupLast sById id with
  | none => .ok false
  | some slot =>
    if !slot.openFlag then
      match slot.owner with
      | none => .error ()
      | some owner =>
        if jsEqBoolStr (jsNotStr owner.token) tokSecret then .ok false else .ok true
    else .ok true

/-- `token.slotIDs.filter(...)` with a callback that can throw: elements
are examined left to right and a throw aborts the whole filter (so the
assignment to `token.slotIDs` does not happen). -/
def reconcileSlotIDs (sById : List (String × Slot)) (tokSecret : String) :
    List String → Except Unit (List String)
  | [] => .ok []
  | id :: rest => do
    let keep ← keepSlotID sById tokSecret id
    let rest' ← reconcileSlotIDs sById tokSecret rest
    pure (if keep then id :: rest' else rest')

/-- The candidate slot ids one pass draws from one appointment
(lines 163-168): the first `min(3, ...)` open slots, every pass. -/
def appCandidates (oa : Appointment) : List String :=
  (((oa.slotData.filter (·.openFlag)).map (·.id)).take 3)

/-- Inner candidate loop of the top-up (lines 165-179).  A candidate is
pushed when `!token.slotIDs.find(id => id === c)` holds, i.e. when no
element equals `c` or the found element is the falsy empty string; after
every candidate the code checks `token.slotIDs.length >= 12` and breaks
out of everything (third component `true`).  Returns the updated list, the
number of pushes, and the break flag. -/
def addCands (slotIDs : List String) : List String → List String × Nat × Bool
  | [] => (slotIDs, 0, false)
  | c :: cs =>
    let step := if slotIDs.contains c && c != "" then (slotIDs, 0) else (slotIDs ++ [c], 1)
    if 12 ≤ step.1.length then (step.1, step.2, true)
    else
      let rest := addCands step.1 cs
      (rest.1, step.2 + rest.2.1, rest.2.2)

/-- One full pass over the selected appointments (lines 161-180),
threading the count of added slots and the `break addSlots` flag. -/
def passApps (slotIDs : List String) : List Appointment → List String × Nat × Bool
  | [] => (slotIDs, 0, false)
  | oa :: oas =>
    let step := addCands slotIDs (appCandidates oa)
    if step.2.2 then (step.1, step.2.1, true)
    else
      let rest := passApps step.1 oas
      (rest.1, step.2.1 + rest.2.1, rest.2.2)

/-- The `addSlots: while (token.slotIDs.length < 12)` loop (lines 160-183).
`fuel` bounds the number of passes; every continuing pass strictly grows
the list, whose length stays below 12 on entry, so 13 passes always
suffice (`topUp_stable` below makes this precise) and the cycle invokes it
with fuel 13. -/
def topUp (fuel : Nat) (apps : List Appointment) (slotIDs : List String) : List String :=
  match fuel with
  | 0 => slotIDs
  | fuel + 1 =>
    if slotIDs.length < 12 then
      let step := passApps slotIDs apps
      if step.2.1 = 0 then step.1 else topUp fuel apps step.1
    else slotIDs

/-- The deficit `Math.floor(Math.max(0, openSlots * overbookingFactor -
openTokens.length))` with `overbookingFactor = 5` (lines 80-83); truncated
`Nat` subtraction is exactly `max 0` of the integer difference, and
`Math.floor` is the identity on it. -/
def tokenDeficit (openSlots poolLen : Nat) : Nat :=
  openSlots * 5 - poolLen

/-- A freshly decrypted token is given an ephemeral key pair, a fresh
grant id, an empty slot-id list and a 24h expiry (lines 113-120); a token
whose decryption threw is discarded (`continue`). -/
def mkValidToken (now : Nat) (r : RawToken) : Option QueueToken :=
  r.decrypted.map (fun d =>
    { token := r.token, queue := r.queue, encPublicKey := r.encPublicKey,
      data := some d, keyPair := some r.freshKeyPair,
      grantID := some r.freshGrantID, slotIDs := some [],
      expiresAt := now + dayMs })

/-- Outcome of the refill step (lines 78-126): the pool value, whether a
token request was made (and for how many), whether the allocator returned
`null` (the `{status: failed}` early return), and whether
`provider::tokens::open` was written. -/
structure RefillOut where
  pool : List QueueToken
  requested : Option Nat
  failed : Bool
  wrote : Bool
deriving DecidableEq, Repr

/-- The refill step (lines 78-126).  `alloc` is the `getQueueTokens`
response (`none` = JS `null`).  The accumulator mirrors the source
exactly: `validTokens` keeps growing across token lists and the whole
accumulated list is re-appended after every token list
(`openTokens = [...openTokens, ...validTokens]` inside the loop). -/
def refill (now : Nat) (alloc : Option (List (List RawToken)))
    (openSlots : Nat) (pool : List QueueToken) : RefillOut :=
  let n := tokenDeficit openSlots pool.length
  if 0 < n ∧ pool.length < 1000 then
    match alloc with
    | none => { pool := pool, requested := some n, failed := true, wrote := false }
    | some tokenLists =>
      let acc := tokenLists.foldl
        (fun acc tl =>
          let vs := acc.2 ++ tl.filterMap (mkValidToken now)
          (acc.1 ++ vs, vs))
        (pool, [])
      { pool := acc.1, requested := some n, failed := false, wrote := true }
  else { pool := pool, requested := none, failed := false, wrote := false }

/-- Shared context of the per-token processing loop. -/
structure SchedEnv where
  sById : List (String × Slot)
  aById : List (String × Appointment)
  selApps : List Appointment
  now : Nat
  signing : KeyPair
  providerSigned : String
deriving DecidableEq, Repr

/-- Insertion-order grouping of a signed grant under its owning
appointment (lines 232-247): a JS object keyed by appointment id whose
`Object.values` come out in first-insertion order. -/
def addToOffers (offers : List OfferOut) (oa : Appointment) (slot : Slot)
    (g : SignedGrant) : List OfferOut :=
  if offers.any (fun o => o.appointmentId == oa.id) then
    offers.map (fun o =>
      if o.appointmentId == oa.id then
        { o with slotData := o.slotData ++ [slot], grants := o.grants ++ [g] }
      else o)
  else
    offers ++ [{ appointmentId := oa.id, status := oa.status, cancel := oa.cancel,
                 timestamp := oa.timestamp, slotData := [slot], grants := [g] }]

/-- Builds the per-token offers from the slot/grant pairs.  A slot id
absent from `appointmentsBySlotId` would make the source read `oa.id` of
`undefined` and throw (`Except.error`); both indices are built from the
same slots, so this does not happen in practice. -/
def buildOffers (aById : List (String × Appointment)) (acc : List OfferOut) :
    List (Slot × SignedGrant) → Except Unit (List OfferOut)
  | [] => .ok acc
  | (slot, g) :: rest =>
    match lookupLast aById slot.id with
    | none => .error ()
    | some oa => buildOffers aById (addToOffers acc oa slot g) rest

/-- The grant signed for one slot held by a token (lines 196-230). -/
def mkGrant (env : SchedEnv) (grantID : String) (expiresAt : Nat)
    (userPublicKey : String) (slot : Slot) : SignedGrant :=
  { privateKey := env.signing.privateKey
    payload :=
      { objectID := slot.id, grantID := grantID, singleUse := true,
        expiresAt := expiresAt,
        permissions :=
          [ { rights := ["read", "write", "delete"], keys := [env.signing.publicKey] },
            { rights := ["write", "read", "delete"], keys := [userPublicKey] } ] }
    publicKey := env.signing.publicKey }

/-- Tail of the per-token loop (lines 188-280) once the slot list is
settled: sign a grant per held slot, group them into offers, assemble and
encrypt the invitation payload, sign it and build the submit record.  All
reads go through the mutated token (`tok2`), whose `keyPair`,
`encPublicKey` and `data` are untouched by the earlier steps.  Returns
`none` when the offer grouping throws. -/
def processTokenTail (env : SchedEnv) (tok2 : QueueToken) (d : TokenData) :
    Option (List SignedGrant × SubmitData) :=
  let slots := (tok2.slotIDs.getD []).filterMap (fun id => lookupLast env.sById id)
  let grants := slots.map
    (mkGrant env (tok2.grantID.getD "") tok2.expiresAt d.publicKey)
  match buildOffers env.aById [] (slots.zip grants) with
  | .error _ => none
  | .ok offers =>
    let userData : UserData := { provider := env.providerSigned, offers := offers }
    let encrypted : Ecdh UserData :=
      { payload := userData, senderKeyPair := tok2.keyPair,
        recipientPublicKey := tok2.encPublicKey }
    let signedEnc : Signed (Ecdh UserData) :=
      { privateKey := env.signing.privateKey, payload := encrypted,
        publicKey := env.signing.publicKey }
    let submit : SubmitData :=
      { id := d.id, data := signedEnc,
        permissions :=
          [ { rights := ["read"], keys := [d.publicKey] },
            { rights := ["read", "write", "delete"],
              keys := [env.signing.publicKey] } ] }
    some (grants, submit)

/-- Body of the per-token loop (lines 144-284) for one token.  `fresh` is
the `randomBytes(32)` drawn if `grantID` is undefined.  Mutations made
before a throw stick (the token object is mutated in place); a throw is
caught by the per-token catch and the token simply contributes no
`dataToSubmit` entry.  Returns the mutated token and, when processing
reached the end, its signed grants and submit record. -/
def processToken (env : SchedEnv) (fresh : String) (t : QueueToken) :
    QueueToken × Option (List SignedGrant × SubmitData) :=
  let tok1 : QueueToken :=
    { t with grantID := some (t.grantID.getD fresh),
             slotIDs := some (t.slotIDs.getD []) }
  match reconcileSlotIDs env.sById tok1.token (t.slotIDs.getD []) with
  | .error _ => (tok1, none)
  | .ok ids =>
    let ids2 := topUp 13 env.selApps ids
    let tok2 : QueueToken :=
      { tok1 with slotIDs := some ids2, expiresAt := env.now + dayMs }
    match t.data with
    | none => (tok2, none)
    | some d => (tok2, processTokenTail env tok2 d)

/-- The per-token loop `for (const [i, token] of openTokens.entries())`
(lines 144-285); the index feeds the fresh grant-id supply. -/
def processAll (env : SchedEnv) (freshG : Nat → String) :
    Nat → List QueueToken → List (QueueToken × Option (List SignedGrant × SubmitData))
  | _, [] => []
  | i, t :: ts => processToken env (freshG i) t :: processAll env freshG (i + 1) ts

/-- The scheduling context of one cycle: the selected appointments
(lines 128-130) and the two lookup indices built from them
(lines 131-141). -/
def cycleEnv (now : Nat) (signing : KeyPair) (providerSigned : String)
    (apps : List Appointment) : SchedEnv :=
  let selApps := selectApps (futureApps now apps)
  { sById := slotsById selApps, aById := appsBySlotId selApps,
    selApps := selApps, now := now, signing := signing,
    providerSigned := providerSigned }

/-- Observable outcome of one scheduling cycle: the returned tagged
status, the successive values written to `provider::tokens::open`, the
token secrets reported to `returnTokens`, the size of the `getQueueTokens`
capacity request (if one was made), the `bulkStoreData` payload (`none`
when the call was never reached), the per-token signed grants, and the
final stored token pool. -/
structure CycleOut where
  status : Status
  writes : List (List QueueToken)
  returned : List String
  requested : Option Nat
  submitted : Option (List SubmitData)
  grants : List (Option (List SignedGrant))
  pool : List QueueToken
deriving DecidableEq, Repr

/-- The scheduling cycle of `sendInvitations` (lines 38-295) after the
lock is acquired, on its happy control path (collaborators other than the
allocator do not throw).  `freshG` supplies the `randomBytes(32)` values
drawn for stored tokens with an undefined `grantID`, `alloc` is the
allocator's response. -/
def runCycle (now : Nat) (freshG : Nat → String)
    (alloc : Option (List (List RawToken))) (signing : KeyPair)
    (providerSigned : String) (apps : List Appointment)
    (pool0 : List QueueToken) : CycleOut :=
  if apps.length = 0 then
    { status := .succeeded, writes := [], returned := [], requested := none,
      submitted := none, grants := [], pool := pool0 }
  else
    let apps1 := futureApps now apps
    let returned := (pool0.filter (fun t => t.expiresAt ≤ now)).map (·.token)
    let pool1 := liveTokens now pool0
    let rf := refill now alloc (openSlotCount apps1) pool1
    if rf.failed then
      { status := .failed, writes := [], returned := returned,
        requested := rf.requested, submitted := none, grants := [], pool := pool0 }
    else
      let env := cycleEnv now signing providerSigned apps
      let results := processAll env freshG 0 rf.pool
      { status := .succeeded,
        writes := (if rf.wrote then [rf.pool] else []) ++ [results.map (·.1)],
        returned := returned,
        requested := rf.requested,
        submitted := some ((results.filterMap (·.2)).map (·.2)),
        grants := results.map (fun r => r.2.map (·.1)),
        pool := results.map (·.1) }

/-! ## Top-level entry points: escape behaviour

The entry points differ in how collaborator failures leave the function:
`sendInvitations` and `confirmOffers` turn a lock-acquisition failure into
`throw null`, the provider `keyPairs` and `createAppointment` let it
propagate; a throw between `sendInvitations`' lock and its inner `try`
(e.g. in `returnTokens`) is swallowed by the outer `catch`, making the
function return `undefined`; a throw of the initial `ecdhEncrypt` in
`confirmOffers` escapes (its `try` has only a `finally`). -/

/-- How a call to an entry point leaves the function. -/
inductive JsOutcome where
  | ret (s : Status)
  | retUndefined
  | thrownNull
  | thrownOther
deriving DecidableEq, Repr

/-- `sendInvitations` (`send-invitations.js` lines 21-305) as seen by its
caller.  `lockOk` is whether `backend.local.lock()` succeeds,
`returnTokensOk` whether `backend.appointments.returnTokens` succeeds when
it is called (it is called only when expired tokens exist), `bulkOk`
whether the final `bulkStoreData` succeeds (its failure is caught by the
inner catch and reported as a failed cycle). -/
def sendInvitationsEntry (lockOk returnTokensOk bulkOk : Bool) (now : Nat)
    (freshG : Nat → String) (alloc : Option (List (List RawToken)))
    (signing : KeyPair) (providerSigned : String) (apps : List Appointment)
    (pool0 : List QueueToken) : JsOutcome :=
  if lockOk = false then .thrownNull
  else if apps.length = 0 then .ret .succeeded
  else if 0 < (pool0.filter (fun t => t.expiresAt ≤ now)).length ∧ returnTokensOk = false then
    .retUndefined
  else
    let r := runCycle now freshG alloc signing providerSigned apps pool0
    if r.status = .failed then .ret .failed
    else if bulkOk = false then .ret .failed
    else .ret .succeeded

/-- `confirmOffers` (`confirm-offers.js` lines 7-111) as seen by its
caller.  `lockOk` is whether `backend.local.lock('confirmOffers')`
succeeds, `encProviderOk` whether the initial `ecdhEncrypt` of the
provider data succeeds (line 33; a failure there escapes through the
`finally`). -/
def confirmOffersEntry (lockOk encProviderOk : Bool)
    (book : String → BookOutcome) (encOk : String → Bool)
    (offers : List UOffer) (cache0 : SlotInfos) : JsOutcome :=
  if lockOk = false then .thrownNull
  else if encProviderOk = false then .thrownOther
  else .ret (confirmOffers book encOk offers cache0).status

/-- A key-pair set as stored under `provider::keyPairs`. -/
structure KeyPairSet where
  signing : KeyPair
  encryption : KeyPair
deriving DecidableEq, Repr

/-- Body of the provider `keyPairs` action (`key-pairs.js` lines 16-43):
return the stored set if present, otherwise generate and persist one
(`gen` is `none` when generation throws, which the inner catch turns into
a failed outcome). -/
def keyPairsAction (stored : Option KeyPairSet) (gen : Option KeyPairSet) :
    Status × Option KeyPairSet :=
  match stored with
  | some kps => (.loaded, some kps)
  | none =>
    match gen with
    | some kps => (.loaded, some kps)
    | none => (.failed, none)

/-- The provider `keyPairs` entry point: its `try` has no `catch`, so a
lock-acquisition failure propagates to the caller. -/
def keyPairsEntry (lockOk : Bool) (stored gen : Option KeyPairSet) : JsOutcome :=
  if lockOk = false then .thrownOther
  else .ret (keyPairsAction stored gen).1

/-- The caller-supplied part of a new appointment
(`create-appointment.js`): the merge keeps the caller's fields and adds
the three generated identifiers. -/
structure NewAppointmentSpec where
  timestamp : Nat
  slotData : List Slot
deriving DecidableEq, Repr

/-- `createAppointment` body: append the merged appointment to
`provider::appointments::open` (`create-appointment.js` lines 18-29);
`ids` are the three `randomBytes(32)` draws. -/
def createAppointment (ids : String × String × String)
    (spec : NewAppointmentSpec) (openAppointments : List Appointment) :
    List Appointment :=
  openAppointments ++
    [{ id := ids.1, status := ids.2.1, cancel := ids.2.2,
       timestamp := spec.timestamp, slotData := spec.slotData }]

/-- The `createAppointment` entry point: like `keyPairs`, its `try` has no
`catch`, so a lock failure propagates; otherwise it returns `loaded`
together with the updated (and persisted) open-appointment list. -/
def createAppointmentEntry (lockOk : Bool) (ids : String × String × String)
    (spec : NewAppointmentSpec) (openAppointments : List Appointment) :
    JsOutcome × List Appointment :=
  if lockOk = false then (.thrownOther, openAppointments)
  else (.ret .loaded, createAppointment ids spec openAppointments)

/-! ## Concrete demonstration data

Small fixtures used by the concrete evaluations below: an appointment two
hours in the future with `k` open slots `s0, s1, ...`, a signing key pair,
a decryptable raw token from the allocator, a stored token already holding
thirteen slot ids, and a stale stored token with no decrypted payload. -/

/-- `k` open, unowned slots with ids `s0 ... s(k-1)`. -/
def demoSlots (k : Nat) : List Slot :=
  (List.range k).map (fun i => { id := "s" ++ toString i, openFlag := true, owner := none })

/-- An appointment two hours in the future carrying `demoSlots k`. -/
def demoApp (k : Nat) : Appointment :=
  { id := "A", status := "st", cancel := "ca", timestamp := 7200000,
    slotData := demoSlots k }

/-- The ids of `demoSlots k`. -/
def demoIDs (k : Nat) : List String := (demoSlots k).map (·.id)

/-- A provider signing key pair. -/
def demoSigning : KeyPair := { publicKey := "spub", privateKey := "spriv" }

/-- A raw allocator token whose decryption succeeds. -/
def demoRaw : RawToken :=
  { token := "tk1", queue := "q1", encPublicKey := "epk1",
    decrypted := some { id := "uid1", publicKey := "upk1" },
    freshKeyPair := "kp1", freshGrantID := "g1" }

/-- A live stored token already holding thirteen slot ids. -/
def demoToken13 : QueueToken :=
  { token := "t", queue := "q", encPublicKey := "pk",
    data := some { id := "uid", publicKey := "upk" }, keyPair := some "kp",
    grantID := some "g", slotIDs := some (demoIDs 13), expiresAt := 10 }

/-- A stored token with nothing decrypted yet. -/
def demoStale : QueueToken :=
  { token := "t", queue := "q", encPublicKey := "pk", data := none,
    keyPair := none, grantID := none, slotIDs := none, expiresAt := 10 }

/-! ## Lemmas about the top-up loop -/

theorem addCands_len (cs : List String) (s : List String) :
    (addCands s cs).1.length = s.length + (addCands s cs).2.1 := by
  induction cs generalizing s with
  | nil => simp [addCands]
  | cons c cs ih =>
    simp only [addCands]
    split
    · split
      · simp
      · have := ih s
        simp only []
        omega
    · split
      · simp
      · have := ih (s ++ [c])
        simp only [List.length_append, List.length_singleton] at this
        simp only []
        omega

theorem addCands_grows (cs : List String) (s : List String) :
    s <+: (addCands s cs).1 := by
  induction cs generalizing s with
  | nil => simp [addCands]
  | cons c cs ih =>
    simp only [addCands]
    split
    · split
      · simp
      · exact ih s
    · split
      · exact List.prefix_append s [c]
      · exact (List.prefix_append s [c]).trans (ih (s ++ [c]))

theorem addCands_zero_eq {cs s : List String} (h : (addCands s cs).2.1 = 0) :
    (addCands s cs).1 = s := by
  have hl := addCands_len cs s
  rw [h] at hl
  exact ((addCands_grows cs s).sublist.eq_of_length (by omega)).symm


theorem addCands_le12 {s : List String} (cs : List String) (h : s.length < 12) :
    (addCands s cs).1.length ≤ 12 := by
  induction cs generalizing s with
  | nil => simp only [addCands]; omega
  | cons c cs ih =>
    simp only [addCands]
    split
    · split
      · exact le_of_lt h
      · exact ih h
    · split
      · rename_i h12
        show (s ++ [c]).length ≤ 12
        simp only [List.length_append, List.length_singleton]
        omega
      · rename_i h12
        refine ih ?_
        show (s ++ [c]).length < 12
        have h12' : ¬ 12 ≤ (s ++ [c]).length := h12
        simp only [List.length_append, List.length_singleton] at h12' ⊢
        omega

theorem addCands_false_lt {s : List String} (cs : List String) (h : s.length < 12)
    (hb : (addCands s cs).2.2 = false) : (addCands s cs).1.length < 12 := by
  induction cs generalizing s with
  | nil => simpa [addCands] using h
  | cons c cs ih =>
    simp only [addCands] at hb ⊢
    split at hb <;> rename_i hc
    · split at hb <;> rename_i h12
      · simp at hb
      · rw [if_pos hc, if_neg h12]
        exact ih h hb
    · split at hb <;> rename_i h12
      · simp at hb
      · rw [if_neg hc, if_neg h12]
        refine ih ?_ hb
        show (s ++ [c]).length < 12
        have h12' : ¬ 12 ≤ (s ++ [c]).length := h12
        simp only [List.length_append, List.length_singleton] at h12' ⊢
        omega

theorem addCands_mem {x : String} {s : List String} (cs : List String)
    (h : x ∈ (addCands s cs).1) : x ∈ s ∨ x ∈ cs := by
  induction cs generalizing s with
  | nil => exact Or.inl h
  | cons c cs ih =>
    simp only [addCands] at h
    split at h <;> rename_i hc
    · split at h
      · exact Or.inl h
      · rcases ih h with h' | h'
        · exact Or.inl h'
        · exact Or.inr (List.mem_cons_of_mem c h')
    · split at h
      · rcases List.mem_append.mp h with h' | h'
        · exact Or.inl h'
        · simp only [List.mem_singleton] at h'
          exact Or.inr (h' ▸ List.mem_cons_self c cs)
      · rcases ih h with h' | h'
        · rcases List.mem_append.mp h' with h'' | h''
          · exact Or.inl h''
          · simp only [List.mem_singleton] at h''
            exact Or.inr (h'' ▸ List.mem_cons_self c cs)
        · exact Or.inr (List.mem_cons_of_mem c h')

theorem passApps_len (apps : List Appointment) (s : List String) :
    (passApps s apps).1.length = s.length + (passApps s apps).2.1 := by
  induction apps generalizing s with
  | nil => simp [passApps]
  | cons oa oas ih =>
    simp only [passApps]
    split
    · exact addCands_len (appCandidates oa) s
    · have h1 := addCands_len (appCandidates oa) s
      have h2 := ih (addCands s (appCandidates oa)).1
      simp only []
      omega

theorem passApps_zero_eq {apps : List Appointment} {s : List String}
    (h : (passApps s apps).2.1 = 0) : (passApps s apps).1 = s := by
  induction apps generalizing s with
  | nil => rfl
  | cons oa oas ih =>
    simp only [passApps] at h ⊢
    split at h <;> rename_i hb
    · rw [if_pos hb]
      exact addCands_zero_eq h
    · rw [if_neg hb]
      simp only [] at h ⊢
      have hz : (addCands s (appCandidates oa)).2.1 = 0 := by omega
      have hr : (passApps (addCands s (appCandidates oa)).1 oas).2.1 = 0 := by omega
      rw [ih hr, addCands_zero_eq hz]

theorem passApps_le12 {s : List String} (apps : List Appointment) (h : s.length < 12) :
    (passApps s apps).1.length ≤ 12 := by
  induction apps generalizing s with
  | nil => exact le_of_lt h
  | cons oa oas ih =>
    simp only [passApps]
    split
    · exact addCands_le12 _ h
    · rename_i hb
      exact ih (addCands_false_lt _ h (by simpa using hb))

theorem passApps_false_lt {s : List String} (apps : List Appointment) (h : s.length < 12)
    (hb : (passApps s apps).2.2 = false) : (passApps s apps).1.length < 12 := by
  induction apps generalizing s with
  | nil => simpa [passApps] using h
  | cons oa oas ih =>
    simp only [passApps] at hb ⊢
    split at hb <;> rename_i hba
    · simp at hb
    · rw [if_neg hba]
      simp only [] at hb ⊢
      exact ih (addCands_false_lt _ h (by simpa using hba)) hb

theorem passApps_mem {x : String} {s : List String} (apps : List Appointment)
    (h : x ∈ (passApps s apps).1) : x ∈ s ∨ ∃ oa ∈ apps, x ∈ appCandidates oa := by
  induction apps generalizing s with
  | nil => exact Or.inl h
  | cons oa oas ih =>
    simp only [passApps] at h
    split at h
    · rcases addCands_mem _ h with h' | h'
      · exact Or.inl h'
      · exact Or.inr ⟨oa, List.mem_cons_self oa oas, h'⟩
    · rcases ih h with h' | h'
      · rcases addCands_mem _ h' with h'' | h''
        · exact Or.inl h''
        · exact Or.inr ⟨oa, List.mem_cons_self oa oas, h''⟩
      · obtain ⟨oa', hoa', hx⟩ := h'
        exact Or.inr ⟨oa', List.mem_cons_of_mem oa hoa', hx⟩

theorem topUp_le12 {s : List String} (fuel : Nat) (apps : List Appointment)
    (h : s.length ≤ 12) : (topUp fuel apps s).length ≤ 12 := by
  induction fuel generalizing s with
  | zero => simpa [topUp] using h
  | succ fuel ih =>
    simp only [topUp]
    split <;> rename_i h12
    · split
      · exact passApps_le12 apps h12
      · exact ih (passApps_le12 apps h12)
    · simpa using h

/-- A call with enough fuel ends in a stable state: either the cap is
reached or one more pass would add nothing. -/
theorem topUp_stable {s : List String} (fuel : Nat) (apps : List Appointment)
    (hfuel : 12 < fuel + s.length) :
    12 ≤ (topUp fuel apps s).length ∨ (passApps (topUp fuel apps s) apps).2.1 = 0 := by
  induction fuel generalizing s with
  | zero => left; simp only [topUp]; omega
  | succ fuel ih =>
    simp only [topUp]
    split <;> rename_i h12
    · split <;> rename_i hz
      · right
        rw [passApps_zero_eq hz]
        exact hz
      · refine ih ?_
        have := passApps_len apps s
        omega
    · left; omega

/-- A stable state is a fixpoint of one unfolding of the loop, whatever
fuel remains. -/
theorem topUp_fix_succ {s : List String} (apps : List Appointment) (fuel : Nat)
    (h : 12 ≤ s.length ∨ (passApps s apps).2.1 = 0) : topUp (fuel + 1) apps s = s := by
  simp only [topUp]
  split <;> rename_i h12
  · rcases h with h | h
    · omega
    · rw [if_pos h]
      exact passApps_zero_eq h
  · rfl

/-- A stable state is a fixpoint of the loop as the cycle calls it. -/
theorem topUp_fix {s : List String} (apps : List Appointment)
    (h : 12 ≤ s.length ∨ (passApps s apps).2.1 = 0) : topUp 13 apps s = s :=
  topUp_fix_succ apps 12 h

/-- Thirteen passes always stabilize (every continuing pass strictly grows
a list whose length stays below twelve on entry), so running the loop on
its own output changes nothing. -/
theorem topUp_idem (apps : List Appointment) (s : List String) :
    topUp 13 apps (topUp 13 apps s) = topUp 13 apps s :=
  topUp_fix apps (topUp_stable 13 apps (by omega))

theorem topUp_mem {x : String} {s : List String} (fuel : Nat) (apps : List Appointment)
    (h : x ∈ topUp fuel apps s) : x ∈ s ∨ ∃ oa ∈ apps, x ∈ appCandidates oa := by
  induction fuel generalizing s with
  | zero => exact Or.inl h
  | succ fuel ih =>
    simp only [topUp] at h
    split at h
    · split at h
      · exact passApps_mem apps h
      · rcases ih h with h' | h'
        · exact passApps_mem apps h'
        · exact Or.inr h'
    · exact Or.inl h

/-! ## Lemmas about reconciliation -/

theorem reconcile_nil (sb : List (String × Slot)) (tk : String) :
    reconcileSlotIDs sb tk [] = .ok [] := rfl

theorem reconcile_cons (sb : List (String × Slot)) (tk : String) (id : String)
    (rest : List String) :
    reconcileSlotIDs sb tk (id :: rest) =
      (keepSlotID sb tk id).bind (fun keep =>
        (reconcileSlotIDs sb tk rest).bind (fun rest' =>
          .ok (if keep then id :: rest' else rest'))) := rfl

theorem reconcile_len {sb : List (String × Slot)} {tk : String} :
    ∀ {l r : List String}, reconcileSlotIDs sb tk l = .ok r → r.length ≤ l.length := by
  intro l
  induction l with
  | nil =>
    intro r h
    rw [reconcile_nil] at h
    cases h
    simp
  | cons id rest ih =>
    intro r h
    rw [reconcile_cons] at h
    rcases hk : keepSlotID sb tk id with e | b <;> rw [hk] at h
    · cases h
    · rcases hr : reconcileSlotIDs sb tk rest with e | r' <;> rw [hr] at h
      · cases h
      · simp only [Except.bind] at h
        cases h
        have := ih hr
        cases b <;> simp <;> omega

theorem reconcile_mem_keep {sb : List (String × Slot)} {tk : String} :
    ∀ {l r : List String}, reconcileSlotIDs sb tk l = .ok r →
      ∀ x ∈ r, keepSlotID sb tk x = .ok true := by
  intro l
  induction l with
  | nil =>
    intro r h x hx
    rw [reconcile_nil] at h
    cases h
    cases hx
  | cons id rest ih =>
    intro r h x hx
    rw [reconcile_cons] at h
    rcases hk : keepSlotID sb tk id with e | b <;> rw [hk] at h
    · cases h
    · rcases hr : reconcileSlotIDs sb tk rest with e | r' <;> rw [hr] at h
      · cases h
      · simp only [Except.bind] at h
        cases h
        cases b with
        | false => exact ih hr x hx
        | true =>
          rcases List.mem_cons.mp hx with h' | h'
          · rw [h']
            exact hk
          · exact ih hr x h'

theorem reconcile_of_all_keep {sb : List (String × Slot)} {tk : String} :
    ∀ {l : List String}, (∀ x ∈ l, keepSlotID sb tk x = .ok true) →
      reconcileSlotIDs sb tk l = .ok l := by
  intro l
  induction l with
  | nil => intro _; rfl
  | cons id rest ih =>
    intro h
    rw [reconcile_cons, h id (List.mem_cons_self id rest),
      ih (fun x hx => h x (List.mem_cons_of_mem id hx))]
    rfl

theorem lookupLast_isSome_of_mem {α : Type} {l : List (String × α)} {k : String} {v : α}
    (h : (k, v) ∈ l) : (lookupLast l k).isSome := by
  unfold lookupLast
  rcases hf : l.reverse.find? (fun p => p.1 == k) with _ | p
  · rw [List.find?_eq_none] at hf
    exact absurd (by simp) (hf (k, v) (List.mem_reverse.mpr h))
  · rw [hf]
    rfl

/-- Under the well-formedness assumption that every closed indexed slot
records its owning token, the reconciliation filter keeps every id drawn
from an appointment's candidate list. -/
theorem keep_of_candidate {apps : List Appointment} {tk x : String} {oa : Appointment}
    (howner : ∀ id slot, lookupLast (slotsById apps) id = some slot →
      slot.openFlag = false → slot.owner ≠ none)
    (hoa : oa ∈ apps) (hx : x ∈ appCandidates oa) :
    keepSlotID (slotsById apps) tk x = .ok true := by
  obtain ⟨sl, hsl, hid⟩ : ∃ sl ∈ oa.slotData, sl.id = x := by
    unfold appCandidates at hx
    have hx' := List.mem_of_mem_take hx
    obtain ⟨sl, hsl, hid⟩ := List.mem_map.mp hx'
    exact ⟨sl, List.mem_of_mem_filter hsl, hid⟩
  have hmem : (x, sl) ∈ slotsById apps := by
    unfold slotsById
    refine List.mem_map.mpr ⟨sl, ?_, by rw [hid]⟩
    refine List.mem_flatten.mpr ⟨oa.slotData, List.mem_map.mpr ⟨oa, hoa, rfl⟩, hsl⟩
  obtain ⟨slot, hslot⟩ := Option.isSome_iff_exists.mp (lookupLast_isSome_of_mem hmem)
  unfold keepSlotID
  rw [hslot]
  by_cases hopen : slot.openFlag = true
  · simp [hopen]
  · have hopen' : slot.openFlag = false := by simpa using hopen
    have hown := howner x slot hslot hopen'
    rcases howner' : slot.owner with _ | o
    · exact absurd howner' hown
    · simp [hopen', howner', jsEqBoolStr]

/-! ## Idempotence of the per-token processing -/

/-- Processing a token a second time against unchanged appointments (and
an index satisfying the closed-slots-record-their-owner well-formedness)
reproduces the token and its grants exactly: the reconciliation keeps
everything it kept or added before, the top-up loop is at a fixpoint, and
the grant/submit computation is deterministic. -/
theorem processToken_idem (env : SchedEnv) (f g : String) (t : QueueToken)
    (hsb : env.sById = slotsById env.selApps)
    (howner : ∀ id slot, lookupLast env.sById id = some slot →
      slot.openFlag = false → slot.owner ≠ none) :
    processToken env g (processToken env f t).1 = processToken env f t := by
  obtain ⟨tk, qu, ek, da, kp, gi, si, ex⟩ := t
  rcases hrec : reconcileSlotIDs env.sById tk (si.getD []) with e | ids
  · simp only [processToken, hrec, Option.getD_some]
  · have hkeep : ∀ x ∈ topUp 13 env.selApps ids, keepSlotID env.sById tk x = .ok true := by
      intro x hx
      rcases topUp_mem 13 env.selApps hx with h' | ⟨oa, hoa, hcand⟩
      · exact reconcile_mem_keep hrec x h'
      · rw [hsb]
        rw [hsb] at howner
        exact keep_of_candidate howner hoa hcand
    have hrec2 : reconcileSlotIDs env.sById tk (topUp 13 env.selApps ids) =
        .ok (topUp 13 env.selApps ids) := reconcile_of_all_keep hkeep
    rcases da with _ | d
    · simp only [processToken, hrec, hrec2, Option.getD_some, topUp_idem]
    · simp only [processToken, hrec, hrec2, Option.getD_some, topUp_idem]

theorem processAll_idem (env : SchedEnv) (f g : Nat → String)
    (hsb : env.sById = slotsById env.selApps)
    (howner : ∀ id slot, lookupLast env.sById id = some slot →
      slot.openFlag = false → slot.owner ≠ none) :
    ∀ (pool : List QueueToken) (i j : Nat),
      processAll env g i ((processAll env f j pool).map (·.1)) =
        processAll env f j pool := by
  intro pool
  induction pool with
  | nil => intro i j; rfl
  | cons t ts ih =>
    intro i j
    simp only [processAll, List.map_cons]
    rw [processToken_idem env (f j) (g i) t hsb howner, ih (i + 1) (j + 1)]

theorem processAll_mem {env : SchedEnv} {f : Nat → String} {x} :
    ∀ {pool : List QueueToken} {i : Nat}, x ∈ processAll env f i pool →
      ∃ t ∈ pool, ∃ s, x = processToken env s t := by
  intro pool
  induction pool with
  | nil => intro i h; cases h
  | cons t ts ih =>
    intro i h
    rcases List.mem_cons.mp h with h' | h'
    · exact ⟨t, List.mem_cons_self t ts, f i, h'⟩
    · obtain ⟨t', ht', s, hs⟩ := ih h'
      exact ⟨t', List.mem_cons_of_mem t ht', s, hs⟩

theorem processToken_slotIDs_le (env : SchedEnv) (s : String) (t : QueueToken)
    (h : (t.slotIDs.getD []).length ≤ 12) :
    (((processToken env s t).1).slotIDs.getD []).length ≤ 12 := by
  obtain ⟨tk, qu, ek, da, kp, gi, si, ex⟩ := t
  rcases hrec : reconcileSlotIDs env.sById tk (si.getD []) with e | ids
  · simp only [processToken, hrec, Option.getD_some]
    exact h
  · have hlen : ids.length ≤ 12 := le_trans (reconcile_len hrec) h
    rcases da with _ | d <;>
      simp only [processToken, hrec, Option.getD_some] <;>
      exact topUp_le12 13 env.selApps hlen

theorem processToken_expires (env : SchedEnv) (s : String) (t : QueueToken)
    (h : env.now < t.expiresAt) : env.now < ((processToken env s t).1).expiresAt := by
  obtain ⟨tk, qu, ek, da, kp, gi, si, ex⟩ := t
  rcases hrec : reconcileSlotIDs env.sById tk (si.getD []) with e | ids
  · simp only [processToken, hrec, Option.getD_some]
    exact h
  · rcases da with _ | d <;>
      simp only [processToken, hrec, Option.getD_some] <;>
      simp [dayMs]

/-! ## Lemmas about the refill step -/

theorem mkValidToken_fields {now : Nat} {r : RawToken} {t : QueueToken}
    (h : mkValidToken now r = some t) :
    t.slotIDs = some [] ∧ t.expiresAt = now + dayMs := by
  unfold mkValidToken at h
  rcases hd : r.decrypted with _ | d <;> rw [hd] at h
  · cases h
  · cases h
    exact ⟨rfl, rfl⟩

theorem refill_mem {now : Nat} {alloc : Option (List (List RawToken))} {os : Nat}
    {pool : List QueueToken} {x : QueueToken}
    (h : x ∈ (refill now alloc os pool).pool) :
    x ∈ pool ∨ ∃ r, mkValidToken now r = some x := by
  rcases alloc with _ | tls
  · simp only [refill] at h
    split at h <;> exact Or.inl h
  · simp only [refill] at h
    split at h
    · simp only [] at h
      have aux : ∀ (tls : List (List RawToken)) (p vs : List QueueToken),
          x ∈ (tls.foldl (fun acc tl =>
            let v := acc.2 ++ tl.filterMap (mkValidToken now)
            (acc.1 ++ v, v)) (p, vs)).1 →
          x ∈ p ∨ x ∈ vs ∨ ∃ r, mkValidToken now r = some x := by
        intro tls
        induction tls with
        | nil => intro p vs h'; exact Or.inl h'
        | cons tl tls ih =>
          intro p vs h'
          simp only [List.foldl_cons] at h'
          rcases ih _ _ h' with h'' | h'' | h''
          · rcases List.mem_append.mp h'' with h3 | h3
            · exact Or.inl h3
            · rcases List.mem_append.mp h3 with h4 | h4
              · exact Or.inr (Or.inl h4)
              · obtain ⟨r, _, hmk⟩ := List.mem_filterMap.mp h4
                exact Or.inr (Or.inr ⟨r, hmk⟩)
          · rcases List.mem_append.mp h'' with h3 | h3
            · exact Or.inr (Or.inl h3)
            · obtain ⟨r, _, hmk⟩ := List.mem_filterMap.mp h3
              exact Or.inr (Or.inr ⟨r, hmk⟩)
          · exact Or.inr (Or.inr h'')
      rcases aux tls pool [] h with h' | h' | h'
      · exact Or.inl h'
      · cases h'
      · exact Or.inr h'
    · exact Or.inl h

theorem refill_some_not_failed (now : Nat) (tls : List (List RawToken)) (os : Nat)
    (pool : List QueueToken) : (refill now (some tls) os pool).failed = false := by
  simp only [refill]
  split <;> rfl

theorem refill_empty_alloc_pool (now : Nat) (os : Nat) (pool : List QueueToken) :
    (refill now (some [[]]) os pool).pool = pool := by
  simp only [refill]
  split
  · simp
  · rfl

/-! ## Lemmas about the whole cycle -/

theorem liveTokens_mem {now : Nat} {pool : List QueueToken} {t : QueueToken}
    (h : t ∈ liveTokens now pool) : now < t.expiresAt := by
  have := List.mem_filter.mp h
  exact of_decide_eq_true this.2

theorem runCycle_eq_of_ok (now : Nat) (freshG : Nat → String)
    (alloc : Option (List (List RawToken))) (signing : KeyPair)
    (providerSigned : String) (apps : List Appointment) (pool0 : List QueueToken)
    (ha : ¬ apps.length = 0)
    (hrf : (refill now alloc (openSlotCount (futureApps now apps))
      (liveTokens now pool0)).failed = false) :
    runCycle now freshG alloc signing providerSigned apps pool0 =
      (let rf := refill now alloc (openSlotCount (futureApps now apps))
        (liveTokens now pool0)
       let results := processAll (cycleEnv now signing providerSigned apps) freshG 0 rf.pool
       { status := .succeeded,
         writes := (if rf.wrote then [rf.pool] else []) ++ [results.map (·.1)],
         returned := (pool0.filter (fun t => t.expiresAt ≤ now)).map (·.token),
         requested := rf.requested,
         submitted := some ((results.filterMap (·.2)).map (·.2)),
         grants := results.map (fun r => r.2.map (·.1)),
         pool := results.map (·.1) }) := by
  simp only [runCycle, ha, if_false, hrf, Bool.false_eq_true]

theorem runCycle_eq_of_failed (now : Nat) (freshG : Nat → String)
    (alloc : Option (List (List RawToken))) (signing : KeyPair)
    (providerSigned : String) (apps : List Appointment) (pool0 : List QueueToken)
    (ha : ¬ apps.length = 0)
    (hrf : (refill now alloc (openSlotCount (futureApps now apps))
      (liveTokens now pool0)).failed = true) :
    runCycle now freshG alloc signing providerSigned apps pool0 =
      { status := .failed, writes := [],
        returned := (pool0.filter (fun t => t.expiresAt ≤ now)).map (·.token),
        requested := (refill now alloc (openSlotCount (futureApps now apps))
          (liveTokens now pool0)).requested,
        submitted := none, grants := [], pool := pool0 } := by
  simp only [runCycle, ha, if_false, hrf, if_true]

theorem runCycle_pool_live (now : Nat) (freshG : Nat → String)
    (alloc : Option (List (List RawToken))) (signing : KeyPair)
    (providerSigned : String) (apps : List Appointment) (pool0 : List QueueToken)
    (ha : ¬ apps.length = 0)
    (hrf : (refill now alloc (openSlotCount (futureApps now apps))
      (liveTokens now pool0)).failed = false) :
    ∀ t ∈ (runCycle now freshG alloc signing providerSigned apps pool0).pool,
      now < t.expiresAt := by
  intro t ht
  rw [runCycle_eq_of_ok now freshG alloc signing providerSigned apps pool0 ha hrf] at ht
  simp only [] at ht
  obtain ⟨pair, hpair, hfst⟩ := List.mem_map.mp ht
  obtain ⟨t0, ht0, s, hs⟩ := processAll_mem hpair
  have hlive0 : now < t0.expiresAt := by
    rcases refill_mem ht0 with h' | ⟨r, hr⟩
    · exact liveTokens_mem h'
    · have := (mkValidToken_fields hr).2
      simp only [this, dayMs]
      omega
  have := processToken_expires (cycleEnv now signing providerSigned apps) s t0 hlive0
  rw [← hs] at this
  rw [← hfst]
  exact this

theorem lookupLast_mem {α : Type} {l : List (String × α)} {k : String} {v : α}
    (h : lookupLast l k = some v) : ∃ p ∈ l, p.2 = v := by
  unfold lookupLast at h
  rcases hf : l.reverse.find? (fun p => p.1 == k) with _ | p <;> rw [hf] at h
  · cases h
  · cases h
    exact ⟨p, List.mem_reverse.mp (List.mem_of_find?_eq_some hf), rfl⟩

/-- C9: running the scheduling cycle twice at the same instant, with the
same appointment list, no bookings in between (the slots are unchanged),
no expiries in between, and the allocator supplying no new tokens on the
second run, reproduces for every token the identical `slotIDs` and the
identical signed-grant lists (in this symbolic embedding the grant
contents, and hence their target object ids, coincide); the assumption
`howner` is the data-model well-formedness that every closed slot of a
selected appointment records its owning token. -/
theorem runCycle_idempotent (now : Nat) (f g : Nat → String)
    (alloc : Option (List (List RawToken))) (signing : KeyPair)
    (providerSigned : String) (apps : List Appointment) (pool0 : List QueueToken)
    (h1 : (runCycle now f alloc signing providerSigned apps pool0).status = .succeeded)
    (howner : ∀ p ∈ slotsById (selectApps (futureApps now apps)),
      p.2.openFlag = false → p.2.owner ≠ none) :
    (runCycle now g (some [[]]) signing providerSigned apps
        (runCycle now f alloc signing providerSigned apps pool0).pool).pool =
      (runCycle now f alloc signing providerSigned apps pool0).pool ∧
    (runCycle now g (some [[]]) signing providerSigned apps
        (runCycle now f alloc signing providerSigned apps pool0).pool).grants =
      (runCycle now f alloc signing providerSigned apps pool0).grants := by
  have howner' : ∀ id slot,
      lookupLast (slotsById (selectApps (futureApps now apps))) id = some slot →
      slot.openFlag = false → slot.owner ≠ none := by
    intro id slot hl hop
    obtain ⟨p, hp, hsnd⟩ := lookupLast_mem hl
    rw [← hsnd]
    exact howner p hp (by rw [hsnd]; exact hop)
  by_cases ha : apps.length = 0
  · constructor <;> simp [runCycle, ha]
  · have hrf : (refill now alloc (openSlotCount (futureApps now apps))
        (liveTokens now pool0)).failed = false := by
      by_contra hc
      have hb : (refill now alloc (openSlotCount (futureApps now apps))
          (liveTokens now pool0)).failed = true := by simpa using hc
      rw [runCycle_eq_of_failed now f alloc signing providerSigned apps pool0 ha hb] at h1
      cases h1
    have hr1 := runCycle_eq_of_ok now f alloc signing providerSigned apps pool0 ha hrf
    have hp1 : (runCycle now f alloc signing providerSigned apps pool0).pool =
        (processAll (cycleEnv now signing providerSigned apps) f 0
          (refill now alloc (openSlotCount (futureApps now apps))
            (liveTokens now pool0)).pool).map (·.1) := by
      rw [hr1]
    have hg1 : (runCycle now f alloc signing providerSigned apps pool0).grants =
        (processAll (cycleEnv now signing providerSigned apps) f 0
          (refill now alloc (openSlotCount (futureApps now apps))
            (liveTokens now pool0)).pool).map (fun r => r.2.map (·.1)) := by
      rw [hr1]
    have hlive := runCycle_pool_live now f alloc signing providerSigned apps pool0 ha hrf
    have hlt : liveTokens now (runCycle now f alloc signing providerSigned apps pool0).pool =
        (runCycle now f alloc signing providerSigned apps pool0).pool := by
      unfold liveTokens
      refine List.filter_eq_self.mpr ?_
      intro t ht
      exact decide_eq_true (hlive t ht)
    have hrf2fail := refill_some_not_failed now [[]]
      (openSlotCount (futureApps now apps))
      (liveTokens now (runCycle now f alloc signing providerSigned apps pool0).pool)
    have hr2 := runCycle_eq_of_ok now g (some [[]]) signing providerSigned apps
      (runCycle now f alloc signing providerSigned apps pool0).pool ha hrf2fail
    have hrf2pool : (refill now (some [[]]) (openSlotCount (futureApps now apps))
        (liveTokens now (runCycle now f alloc signing providerSigned apps pool0).pool)).pool =
        (runCycle now f alloc signing providerSigned apps pool0).pool := by
      rw [refill_empty_alloc_pool, hlt]
    have hidem := processAll_idem (cycleEnv now signing providerSigned apps) f g rfl
      howner'
      (refill now alloc (openSlotCount (futureApps now apps)) (liveTokens now pool0)).pool
      0 0
    constructor
    · rw [hr2]
      simp only []
      rw [hrf2pool, hp1, hidem, ← hp1]
    · rw [hr2]
      simp only []
      rw [hrf2pool, hp1, hidem, ← hg1]

theorem getInfo_setInfo_same (m : SlotInfos) (id : String) (s : SlotStatus) :
    getInfo (setInfo m id s) id = some s := by
  simp [getInfo, setInfo, List.reverse_append]

/-! ## Claim theorems -/

/-- C1: the claim says the reconciliation step drops a slot id whose slot
is closed and owned by a different token.  The code does not: in
`!slot.token.token === token.token` the negation binds first, so a boolean
is compared with a string and the comparison is always false — the drop
branch never fires and the id of a closed, foreign-owned slot is kept
(contradicting the comment `we remove slots taken by other users` right
above it).  Here the token with secret `t1` holds slot `s1`, which is
closed and owned by the token with secret `t2`, yet reconciliation keeps
`s1`. -/
theorem reconcile_keeps_closed_foreign_slot :
    reconcileSlotIDs
      [("s1", { id := "s1", openFlag := false, owner := some { token := "t2" } })]
      "t1" ["s1"] = .ok ["s1"] := rfl

/-- C3: the claim says a token with empty `slotIDs` facing a single
selected appointment with at least 12 open slots ends the cycle with 12
slot ids.  The code's top-up loop examines only the first
`min(3, openSlots.length)` open slots of each appointment on every pass
(the index never advances past 2), so the second pass adds nothing and the
loop stops at 3 ids — even though its `while (slotIDs.length < 12)` guard
and the `seems there are no more slots left` comment show it was meant to
keep filling up to 12. -/
theorem topUp_single_appointment_only_three :
    topUp 13
      [{ id := "A", status := "st", cancel := "ca", timestamp := 7200000,
         slotData :=
          [{ id := "s1", openFlag := true, owner := none },
           { id := "s2", openFlag := true, owner := none },
           { id := "s3", openFlag := true, owner := none },
           { id := "s4", openFlag := true, owner := none },
           { id := "s5", openFlag := true, owner := none },
           { id := "s6", openFlag := true, owner := none },
           { id := "s7", openFlag := true, owner := none },
           { id := "s8", openFlag := true, owner := none },
           { id := "s9", openFlag := true, owner := none },
           { id := "s10", openFlag := true, owner := none },
           { id := "s11", openFlag := true, owner := none },
           { id := "s12", openFlag := true, owner := none }] }]
      [] = ["s1", "s2", "s3"] := by decide

/-- C4: with two offers of one open slot each, where booking the first
offer's slot raises a remote conflict (RPCException code 401) and booking
the second offer's slot succeeds, `confirmOffers` returns succeeded
carrying offer 2 and its slot, and the persisted slot-status cache maps
the first slot's id to `taken`. -/
theorem confirmOffers_conflict_then_success :
    (confirmOffers
      (fun id => if id == "s1" then .rpcError 401 else .ok)
      (fun _ => true)
      [{ publicKey := "pk1", slotData := [{ id := "s1", failed := false, openFlag := true }] },
       { publicKey := "pk2", slotData := [{ id := "s2", failed := false, openFlag := true }] }]
      []).status = .succeeded ∧
    (confirmOffers
      (fun id => if id == "s1" then .rpcError 401 else .ok)
      (fun _ => true)
      [{ publicKey := "pk1", slotData := [{ id := "s1", failed := false, openFlag := true }] },
       { publicKey := "pk2", slotData := [{ id := "s2", failed := false, openFlag := true }] }]
      []).accepted =
      some ({ publicKey := "pk2", slotData := [{ id := "s2", failed := false, openFlag := true }] },
        { id := "s2", failed := false, openFlag := true }) ∧
    getInfo (confirmOffers
      (fun id => if id == "s1" then .rpcError 401 else .ok)
      (fun _ => true)
      [{ publicKey := "pk1", slotData := [{ id := "s1", failed := false, openFlag := true }] },
       { publicKey := "pk2", slotData := [{ id := "s2", failed := false, openFlag := true }] }]
      []).cache "s1" = some .taken := by decide

/-- C5 counterexample: the claim says every booking failure other than a
remote conflict marks the slot `error` in the cache.  A failure that is
not an `RPCException` (here `otherThrow`, e.g. a network-level error or a
thrown non-object) passes the `typeof e === 'object' && e.name ===
'RPCException'` guard without writing anything: iteration continues with
the next slot (which succeeds), but slot `s1` is absent from the cache
instead of being marked `error`. -/
theorem nonRpc_failure_not_marked :
    (confirmOffers
      (fun id => if id == "s1" then .otherThrow else .ok)
      (fun _ => true)
      [{ publicKey := "pk1",
         slotData := [{ id := "s1", failed := false, openFlag := true },
                      { id := "s2", failed := false, openFlag := true }] }]
      []).accepted =
      some ({ publicKey := "pk1",
              slotData := [{ id := "s1", failed := false, openFlag := true },
                           { id := "s2", failed := false, openFlag := true }] },
        { id := "s2", failed := false, openFlag := true }) ∧
    getInfo (confirmOffers
      (fun id => if id == "s1" then .otherThrow else .ok)
      (fun _ => true)
      [{ publicKey := "pk1",
         slotData := [{ id := "s1", failed := false, openFlag := true },
                      { id := "s2", failed := false, openFlag := true }] }]
      []).cache "s1" = none := by decide

/-- C5 as amended: a slot whose booking call fails with an `RPCException`
carrying a code other than 401 is marked `error` in the cache and
iteration continues with the next candidate slot of the same offer;
booking failures that are not `RPCException`s continue without marking,
and a local encryption failure aborts the current offer without
marking. -/
theorem trySlots_rpcError_marks_error_continues (book : String → BookOutcome)
    (sd : OfferSlotData) (rest : List OfferSlotData) (infos : SlotInfos) (c : Nat)
    (h1 : sd.failed = false) (h2 : sd.openFlag = true)
    (h3 : ¬ getInfo infos sd.id = some .taken)
    (h4 : book sd.id = .rpcError c) (h5 : ¬ c = 401) :
    trySlots book true (sd :: rest) infos =
      trySlots book true rest (setInfo infos sd.id .error) ∧
    getInfo (setInfo infos sd.id .error) sd.id = some .error := by
  refine ⟨?_, getInfo_setInfo_same infos sd.id .error⟩
  have hbeq : (getInfo infos sd.id == some SlotStatus.taken) = false := by
    simp [h3]
  simp [trySlots, h1, h2, hbeq, h4, h5]

/-- C10: when the stored open-appointment list is empty the cycle returns
succeeded immediately and has no effects: nothing is reported to
`returnTokens`, no token request is made, nothing is written to the token
pool (expired tokens included), no grants are signed and no envelopes are
submitted. -/
theorem runCycle_empty_appointments_no_effects (now : Nat) (freshG : Nat → String)
    (alloc : Option (List (List RawToken))) (signing : KeyPair)
    (providerSigned : String) (pool : List QueueToken) :
    runCycle now freshG alloc signing providerSigned [] pool =
      { status := .succeeded, writes := [], returned := [], requested := none,
        submitted := none, grants := [], pool := pool } := rfl

/-- C2 counterexample: the claim says every refill leaves at most 1000
live tokens.  The 1000 cap only gates whether a request is made; with 999
live tokens and 201 open slots the deficit is 6, a request goes out, and
two decryptable returned tokens make the pool 1001. -/
theorem refill_can_exceed_thousand :
    1000 <
      ((refill 0
        (some [[demoRaw, { demoRaw with token := "tk2" }]])
        201 (List.replicate 999 demoStale)).pool).length := by
  have hlen : (List.replicate 999 demoStale).length = 999 := List.length_replicate _ _
  have h2 : ([demoRaw, { demoRaw with token := "tk2" }].filterMap (mkValidToken 0)).length = 2 := by
    decide
  simp only [refill]
  rw [if_pos ⟨by rw [hlen]; decide, by rw [hlen]; decide⟩]
  simp only [List.foldl_cons, List.foldl_nil, List.nil_append, List.length_append, hlen, h2]
  decide

/-- C2 as amended: the refill requests new tokens only while the live
pool is below 1000 (a pool at or over 1000 is left untouched), and when
the allocator answers the single capacity request with at most the
requested number of tokens the resulting pool holds at most
`max startingCount (openSlots * 5)` tokens — which can exceed 1000. -/
theorem refill_pool_bound (now : Nat) (os : Nat) (pool : List QueueToken)
    (tl : List RawToken)
    (h : tl.length ≤ tokenDeficit os pool.length) :
    ((refill now (some [tl]) os pool).pool).length ≤ max pool.length (os * 5) ∧
    (1000 ≤ pool.length → (refill now (some [tl]) os pool).pool = pool) := by
  constructor
  · simp only [refill]
    split <;> rename_i hg
    · simp only [List.foldl_cons, List.foldl_nil, List.nil_append, List.length_append]
      have hf := List.length_filterMap_le (mkValidToken now) tl
      have hd : tokenDeficit os pool.length = os * 5 - pool.length := rfl
      rw [hd] at h
      obtain ⟨hg1, _⟩ := hg
      rw [hd] at hg1
      have hle : pool.length + (tl.filterMap (mkValidToken now)).length ≤ os * 5 := by
        omega
      exact le_trans hle (le_max_right _ _)
    · exact le_max_left _ _
  · intro hge
    have hng : ¬ (0 < tokenDeficit os pool.length ∧ pool.length < 1000) := by
      rintro ⟨_, hlt⟩
      omega
    simp only [refill]
    rw [if_neg hng]

theorem refill_pool_bound_witness :
    ((refill 0 (some [[demoRaw]]) 2 []).pool).length ≤ max (List.length ([] : List QueueToken)) (2 * 5) ∧
    (1000 ≤ List.length ([] : List QueueToken) → (refill 0 (some [[demoRaw]]) 2 []).pool = []) :=
  refill_pool_bound 0 2 [] [demoRaw] (by decide)

/-- C6 counterexample: the claim says no exception escapes a top-level
entry point, in particular on lock-acquisition failure.  `confirmOffers`
deliberately rethrows a failed lock acquisition as `throw null`, so the
call leaves by an exception instead of returning a tagged outcome. -/
theorem lock_failure_throws_null :
    confirmOffersEntry false true (fun _ => .ok) (fun _ => true) [] [] = .thrownNull := rfl

/-- C6 as amended: exceptions do escape the entry points in the outer
regions — a failed lock acquisition makes `sendInvitations` and
`confirmOffers` throw null (and propagates out of `keyPairs` and
`createAppointment`), a `returnTokens` failure makes `sendInvitations`
return undefined, and a failure of the initial provider-data encryption
escapes `confirmOffers`; but once the lock is held and those outer
collaborator calls succeed, every entry point returns a tagged outcome
(succeeded, loaded or failed), whatever the remaining collaborators do. -/
theorem entry_points_tagged_when_lock_held (bulkOk : Bool) (now : Nat)
    (freshG : Nat → String) (alloc : Option (List (List RawToken)))
    (signing : KeyPair) (providerSigned : String) (apps : List Appointment)
    (pool0 : List QueueToken) (book : String → BookOutcome)
    (encOk : String → Bool) (offers : List UOffer) (cache0 : SlotInfos)
    (stored gen : Option KeyPairSet) (ids : String × String × String)
    (spec : NewAppointmentSpec) (openApps : List Appointment) :
    (∃ s, sendInvitationsEntry true true bulkOk now freshG alloc signing
      providerSigned apps pool0 = .ret s) ∧
    (∃ s, confirmOffersEntry true true book encOk offers cache0 = .ret s) ∧
    (∃ s, keyPairsEntry true stored gen = .ret s) ∧
    (∃ s, (createAppointmentEntry true ids spec openApps).1 = .ret s) := by
  refine ⟨?_, ⟨(confirmOffers book encOk offers cache0).status, rfl⟩,
    ⟨(keyPairsAction stored gen).1, rfl⟩, ⟨.loaded, rfl⟩⟩
  by_cases hApps : apps.length = 0
  · exact ⟨.succeeded, by simp [sendInvitationsEntry, hApps]⟩
  · by_cases hFail : (runCycle now freshG alloc signing providerSigned apps pool0).status = .failed
    · exact ⟨.failed, by simp [sendInvitationsEntry, hApps, hFail]⟩
    · by_cases hBulk : bulkOk = false
      · exact ⟨.failed, by simp [sendInvitationsEntry, hApps, hFail, hBulk]⟩
      · exact ⟨.succeeded, by simp [sendInvitationsEntry, hApps, hFail, hBulk]⟩

/-- C7: whenever `openSlots * 5 - currentLiveTokenCount` is positive and
the live pool is below the 1000 cap, the cycle requests exactly that many
tokens from the allocator, and that number equals
`max 0 (openSlots * 5 - currentLiveTokenCount)`. -/
theorem refill_requests_deficit (now : Nat) (freshG : Nat → String)
    (alloc : Option (List (List RawToken))) (signing : KeyPair)
    (providerSigned : String) (apps : List Appointment) (pool0 : List QueueToken)
    (hpos : 0 < tokenDeficit (openSlotCount (futureApps now apps))
      (liveTokens now pool0).length)
    (hcap : (liveTokens now pool0).length < 1000) :
    (runCycle now freshG alloc signing providerSigned apps pool0).requested =
      some (tokenDeficit (openSlotCount (futureApps now apps))
        (liveTokens now pool0).length) ∧
    ((tokenDeficit (openSlotCount (futureApps now apps))
        (liveTokens now pool0).length : Int) =
      max 0 ((openSlotCount (futureApps now apps) : Int) * 5 -
        ((liveTokens now pool0).length : Int))) := by
  constructor
  · have ha : ¬ apps.length = 0 := by
      intro h0
      have hnil : apps = [] := List.length_eq_zero.mp h0
      subst hnil
      simp [futureApps, openSlotCount, tokenDeficit] at hpos
    have hreq : (refill now alloc (openSlotCount (futureApps now apps))
        (liveTokens now pool0)).requested =
        some (tokenDeficit (openSlotCount (futureApps now apps))
          (liveTokens now pool0).length) := by
      rcases alloc with _ | tls <;>
        · simp only [refill]
          rw [if_pos ⟨hpos, hcap⟩]
    rcases hF : (refill now alloc (openSlotCount (futureApps now apps))
        (liveTokens now pool0)).failed with _ | _
    · rw [runCycle_eq_of_ok now freshG alloc signing providerSigned apps pool0 ha hF]
      exact hreq
    · rw [runCycle_eq_of_failed now freshG alloc signing providerSigned apps pool0 ha hF]
      exact hreq
  · simp only [tokenDeficit]
    omega

theorem refill_requests_deficit_witness :
    (runCycle 0 (fun _ => "f") (some [[]]) demoSigning "vpd" [demoApp 10] []).requested =
      some (tokenDeficit (openSlotCount (futureApps 0 [demoApp 10]))
        (liveTokens 0 []).length) ∧
    ((tokenDeficit (openSlotCount (futureApps 0 [demoApp 10]))
        (liveTokens 0 []).length : Int) =
      max 0 ((openSlotCount (futureApps 0 [demoApp 10]) : Int) * 5 -
        ((liveTokens 0 ([] : List QueueToken)).length : Int))) ∧
    tokenDeficit (openSlotCount (futureApps 0 [demoApp 10])) (liveTokens 0 []).length = 50 :=
  ⟨(refill_requests_deficit 0 (fun _ => "f") (some [[]]) demoSigning "vpd"
      [demoApp 10] [] (by decide) (by decide)).1,
   (refill_requests_deficit 0 (fun _ => "f") (some [[]]) demoSigning "vpd"
      [demoApp 10] [] (by decide) (by decide)).2,
   by decide⟩

theorem trySlots_rpcError_witness :
    trySlots (fun _ => .rpcError 500) true
      [{ id := "a", failed := false, openFlag := true },
       { id := "b", failed := false, openFlag := true }] [] =
      trySlots (fun _ => .rpcError 500) true
        [{ id := "b", failed := false, openFlag := true }]
        (setInfo [] "a" .error) ∧
    getInfo (setInfo [] "a" .error) "a" = some .error :=
  trySlots_rpcError_marks_error_continues (fun _ => .rpcError 500)
    { id := "a", failed := false, openFlag := true }
    [{ id := "b", failed := false, openFlag := true }] [] 500
    rfl rfl (by decide) rfl (by decide)

/-- C8 counterexample: the claim quantifies over every starting pool, but
a stored token that already carries thirteen ids of existing open slots
keeps all thirteen: reconciliation drops nothing (the slots exist and are
open) and the top-up loop does not run because 13 is not below 12, so the
persisted pool ends the cycle with a token whose `slotIDs` has 13
entries. -/
theorem cycle_can_keep_thirteen_slotIDs :
    ¬ (∀ t ∈ (runCycle 0 (fun _ => "fg") (some [[]]) demoSigning "vpd"
        [demoApp 13] [demoToken13]).pool,
        (t.slotIDs.getD []).length ≤ 12) := by
  decide

/-- C8 as amended: the 12-entry bound is an inductive invariant rather
than unconditional — if every token of the starting pool carries at most
12 slot ids, then after any scheduling cycle every token of the persisted
pool still carries at most 12 (newly refilled tokens start empty,
reconciliation only removes ids, and the top-up loop stops pushing the
moment a token reaches 12). -/
theorem cycle_preserves_slotIDs_bound (now : Nat) (freshG : Nat → String)
    (alloc : Option (List (List RawToken))) (signing : KeyPair)
    (providerSigned : String) (apps : List Appointment) (pool0 : List QueueToken)
    (h : ∀ t ∈ pool0, (t.slotIDs.getD []).length ≤ 12) :
    ∀ t ∈ (runCycle now freshG alloc signing providerSigned apps pool0).pool,
      (t.slotIDs.getD []).length ≤ 12 := by
  intro t ht
  by_cases ha : apps.length = 0
  · have hnil : apps = [] := List.length_eq_zero.mp ha
    subst hnil
    simp only [runCycle, List.length_nil, if_pos rfl] at ht
    exact h t ht
  · rcases hF : (refill now alloc (openSlotCount (futureApps now apps))
        (liveTokens now pool0)).failed with _ | _
    · rw [runCycle_eq_of_ok now freshG alloc signing providerSigned apps pool0 ha hF] at ht
      simp only [] at ht
      obtain ⟨pair, hpair, hfst⟩ := List.mem_map.mp ht
      obtain ⟨t0, ht0, s, hs⟩ := processAll_mem hpair
      have h0 : (t0.slotIDs.getD []).length ≤ 12 := by
        rcases refill_mem ht0 with h' | ⟨r, hr⟩
        · exact h t0 (List.mem_of_mem_filter h')
        · rw [(mkValidToken_fields hr).1]
          simp
      rw [← hfst, hs]
      exact processToken_slotIDs_le _ s t0 h0
    · rw [runCycle_eq_of_failed now freshG alloc signing providerSigned apps pool0 ha hF] at ht
      exact h t ht

theorem cycle_preserves_slotIDs_bound_witness :
    ((runCycle 0 (fun _ => "fg") (some [[demoRaw]]) demoSigning "vpd"
      [demoApp 1] [demoStale]).pool.all
        (fun t => (t.slotIDs.getD []).length ≤ 12)) = true := by
  have h := cycle_preserves_slotIDs_bound 0 (fun _ => "fg") (some [[demoRaw]])
    demoSigning "vpd" [demoApp 1] [demoStale] (by decide)
  rw [List.all_eq_true]
  intro t ht
  exact decide_eq_true (h t ht)

theorem runCycle_idempotent_witness :
    (runCycle 0 (fun _ => "f2") (some [[]]) demoSigning "vpd" [demoApp 1]
        (runCycle 0 (fun _ => "f1") (some [[demoRaw]]) demoSigning "vpd"
          [demoApp 1] []).pool).pool =
      (runCycle 0 (fun _ => "f1") (some [[demoRaw]]) demoSigning "vpd"
        [demoApp 1] []).pool ∧
    (runCycle 0 (fun _ => "f2") (some [[]]) demoSigning "vpd" [demoApp 1]
        (runCycle 0 (fun _ => "f1") (some [[demoRaw]]) demoSigning "vpd"
          [demoApp 1] []).pool).grants =
      (runCycle 0 (fun _ => "f1") (some [[demoRaw]]) demoSigning "vpd"
        [demoApp 1] []).grants :=
  runCycle_idempotent 0 (fun _ => "f1") (fun _ => "f2") (some [[demoRaw]])
    demoSigning "vpd" [demoApp 1] [] (by decide) (by decide)

end Kiebitz
